import Mathlib

/-!
# Verification of the rclcpp events-executor core

Shallow embedding of three source files of the repository:

* `TimersQueue` (timer queue of the events executor): a vector of timer
  handles kept sorted by time-until-trigger, with `add_timer`,
  `remove_timer`, `get_head_timeout`, `execute_ready_timers`, `clear_all`.
* `EventsExecutorEntitiesCollector`: node tracking via an atomic
  "associated with an executor" flag (`add_node`, `remove_node`,
  destructor) and full re-wiring of entity callbacks (`execute` /
  `set_entities_callbacks`).
* `Clock`: `ros_time_is_active`, `on_time_jump`, `create_jump_callback`
  and the deleter of the handle it returns.

Machine integers do not overflow in any of the modelled paths, so times
are `Int` nanoseconds; pointer identity is modelled by `Nat` ids.
-/

/-! ## Timer queue (`TimersQueue`) -/

/-- A timer handle (`rclcpp::TimerBase::SharedPtr`).  `id` models the
pointer identity of the managed object, `due` the absolute instant at
which the timer next triggers, in nanoseconds. -/
structure Timer where
  id : Nat
  due : Int
deriving DecidableEq, Repr

/-- `time_until_trigger()` sampled at instant `now`: negative when the
timer is overdue. -/
def time_until_trigger (now : Int) (t : Timer) : Int := t.due - now

/-- `is_ready()`: the timer is due, i.e. `time_until_trigger() ≤ 0`. -/
def is_ready (now : Int) (t : Timer) : Bool := t.due ≤ now

/-- The comparator `timer_less_than_comparison` orders timers by
`time_until_trigger()`; at any single instant this is exactly the order
of the absolute due instants, so the embedding sorts by `due`.  We use
the reflexive closure of the strict comparator, which induces the same
sorted sequences. -/
def timerLE (a b : Timer) : Prop := a.due ≤ b.due

instance : DecidableRel timerLE := fun a b => inferInstanceAs (Decidable (a.due ≤ b.due))

instance : IsTotal Timer timerLE := ⟨fun a b => Int.le_total a.due b.due⟩

instance : IsTrans Timer timerLE := ⟨fun _ _ _ h1 h2 => le_trans h1 h2⟩

/-- `reorder_queue()`: `std::sort` of the whole vector under
`timer_less_than_comparison`.  `std::sort` promises a sorted permutation
of its input; the embedding realises that contract with insertion sort. -/
def reorder_queue (q : List Timer) : List Timer := List.insertionSort timerLE q

/-- `add_timer(timer)`: `emplace_back` followed by `reorder_queue()`. -/
def add_timer (t : Timer) (q : List Timer) : List Timer := reorder_queue (q ++ [t])

/-- `remove_timer(timer)`: scan from the front, erase the first element
whose raw pointer equals the argument's, then stop; no effect when no
element matches. -/
def remove_timer (tm : Timer) : List Timer → List Timer
  | [] => []
  | u :: ts => if u.id = tm.id then ts else u :: remove_timer tm ts

/-- `clear_all()`: drops every entry without invoking callbacks. -/
def clear_all (_q : List Timer) : List Timer := ([] : List Timer)

/-- `get_head_timeout()`: reads `timers_queue.front()` and, when the
read handle is non-null, returns its `time_until_trigger()`.  On an
empty vector `front()` is undefined behaviour (it does not yield a null
pointer, so the `head != nullptr` guard cannot catch that case); the
embedding returns `none` for it.  On a non-empty queue the head handle
is the one stored by `add_timer`, hence non-null, and its timeout is
returned. -/
def get_head_timeout (now : Int) (q : List Timer) : Option Int :=
  match q with
  | [] => none
  | t :: _ => some (time_until_trigger now t)

/-- `execute_ready_timers()`: walk the queue from the front; `break` at
the first timer whose `is_ready()` is false; call `execute_callback()`
on each timer visited before that, which may reschedule that timer
(modelled by `resched`, acting on the executed timer only); finally
`reorder_queue()`.  Returns the executed timers in execution order,
paired with the queue vector after the final re-sort. -/
def execute_ready_timers (resched : Timer → Timer) (now : Int) (q : List Timer) :
    List Timer × List Timer :=
  (q.takeWhile (is_ready now),
   reorder_queue ((q.takeWhile (is_ready now)).map resched ++ q.dropWhile (is_ready now)))

/-- One mutating operation on a `TimersQueue`. -/
inductive TOp where
  | add (t : Timer)
  | remove (t : Timer)
  | clear
  | exec (now : Int)
deriving Repr

/-- Apply one operation to the queue. -/
def stepTimers (resched : Timer → Timer) (q : List Timer) : TOp → List Timer
  | .add t => add_timer t q
  | .remove t => remove_timer t q
  | .clear => clear_all q
  | .exec now => (execute_ready_timers resched now q).2

/-- The queue state reached from the initial (empty) queue by a sequence
of operations. -/
def runTimers (resched : Timer → Timer) (ops : List TOp) : List Timer :=
  ops.foldl (stepTimers resched) []

/-! ### Helper lemmas about the queue -/

lemma sorted_reorder_queue (q : List Timer) :
    List.Sorted timerLE (reorder_queue q) :=
  List.sorted_insertionSort timerLE q

lemma perm_reorder_queue (q : List Timer) : (reorder_queue q).Perm q :=
  List.perm_insertionSort timerLE q

lemma remove_timer_sublist (tm : Timer) (q : List Timer) :
    (remove_timer tm q).Sublist q := by
  induction q with
  | nil => simp [remove_timer]
  | cons u ts ih =>
      by_cases h : u.id = tm.id
      · simp [remove_timer, h]
      · simpa [remove_timer, h] using ih.cons₂ u

lemma sorted_remove_timer (tm : Timer) (q : List Timer)
    (hq : List.Sorted timerLE q) : List.Sorted timerLE (remove_timer tm q) :=
  hq.sublist (remove_timer_sublist tm q)

lemma sorted_stepTimers (resched : Timer → Timer) (q : List Timer) (op : TOp)
    (hq : List.Sorted timerLE q) :
    List.Sorted timerLE (stepTimers resched q op) := by
  cases op with
  | add t => exact sorted_reorder_queue _
  | remove t => exact sorted_remove_timer t q hq
  | clear => simp [stepTimers, clear_all]
  | exec now => exact sorted_reorder_queue _

lemma sorted_runTimers (resched : Timer → Timer) (ops : List TOp) :
    List.Sorted timerLE (runTimers resched ops) := by
  have key : ∀ (ops : List TOp) (q : List Timer), List.Sorted timerLE q →
      List.Sorted timerLE (ops.foldl (stepTimers resched) q) := by
    intro ops
    induction ops with
    | nil => intro q hq; simpa using hq
    | cons op ops ih =>
        intro q hq
        exact ih _ (sorted_stepTimers resched q op hq)
  exact key ops [] (by simp)

lemma takeWhile_eq_filter_of_sorted (now : Int) (q : List Timer)
    (hq : List.Sorted timerLE q) :
    q.takeWhile (is_ready now) = q.filter (is_ready now) := by
  induction q with
  | nil => rfl
  | cons t ts ih =>
      rcases List.sorted_cons.mp hq with ⟨hrel, hts⟩
      by_cases h : is_ready now t
      · simp [List.takeWhile, List.filter, h, ih hts]
      · have hnone : ts.filter (is_ready now) = [] := by
          rw [List.filter_eq_nil_iff]
          intro u hu
          have hle : t.due ≤ u.due := hrel u hu
          have hnot : ¬ t.due ≤ now := by simpa [is_ready] using h
          simp only [is_ready, decide_eq_true_eq]
          intro hun
          exact hnot (le_trans hle hun)
        simp [List.takeWhile, List.filter, h, hnone]

lemma sorted_takeWhile (now : Int) (q : List Timer)
    (hq : List.Sorted timerLE q) :
    List.Sorted timerLE (q.takeWhile (is_ready now)) :=
  hq.sublist (List.takeWhile_sublist _)

lemma ready_of_mem_takeWhile (now : Int) (q : List Timer) (t : Timer)
    (ht : t ∈ q.takeWhile (is_ready now)) : time_until_trigger now t ≤ 0 := by
  have := List.mem_takeWhile_imp ht
  simp only [is_ready, decide_eq_true_eq] at this
  simp only [time_until_trigger]
  omega

/-! ## Claims about the timer queue -/

/-- C4.  Sortedness invariant of the Timer Queue: `add_timer` appends
then fully re-sorts ascending by time-until-trigger (first conjunct,
reading off the source definition), and every queue state reachable from
the empty queue by any sequence of add / remove / clear / execute-ready
operations is sorted ascending by time-until-trigger — in particular the
queue is sorted immediately before every execute-ready pass. -/
theorem C4_sortedness_invariant :
    ∀ (resched : Timer → Timer) (ops : List TOp) (t : Timer) (q : List Timer),
      add_timer t q = reorder_queue (q ++ [t])
      ∧ List.Sorted timerLE (runTimers resched ops) := by
  intro resched ops t q
  exact ⟨rfl, sorted_runTimers resched ops⟩

/-- C3 (code bug).  On the empty queue, `get_head_timeout` evaluates
`timers_queue.front()` on an empty `std::vector`, which is undefined
behaviour (`none` in the embedding) — the operation is *not* total and
does not return the maximum duration there, because `front()` of an
empty vector never yields the null pointer the guard tests for.  On a
non-empty queue it does return the head timer's `time_until_trigger()`,
negative when overdue, as the second and third conjuncts evaluate. -/
theorem C3_head_timeout_empty_queue_undefined :
    get_head_timeout 0 ([] : List Timer) = none
    ∧ get_head_timeout 0 [⟨1, -5⟩] = some (-5)
    ∧ get_head_timeout 0 [⟨1, 7⟩, ⟨2, 9⟩] = some 7 := by
  refine ⟨rfl, rfl, rfl⟩

/-- C9.  `remove_timer` removes exactly the first entry whose pointer
identity matches the argument, leaving every entry before it and every
entry after it (later duplicates included) unchanged; when no entry
matches, the call leaves the queue unchanged (and it is total, hence not
an error). -/
theorem C9_remove_first_identity_match :
    ∀ (tm : Timer) (q pre post : List Timer) (t : Timer),
      ((∀ u ∈ q, u.id ≠ tm.id) → remove_timer tm q = q)
      ∧ ((∀ u ∈ pre, u.id ≠ tm.id) → t.id = tm.id →
          remove_timer tm (pre ++ t :: post) = pre ++ post) := by
  intro tm q pre post t
  constructor
  · intro hnone
    induction q with
    | nil => rfl
    | cons u ts ih =>
        have hu : u.id ≠ tm.id := hnone u (by simp)
        have hts : ∀ v ∈ ts, v.id ≠ tm.id := fun v hv => hnone v (by simp [hv])
        simp [remove_timer, hu, ih hts]
  · intro hpre ht
    induction pre with
    | nil => simp [remove_timer, ht]
    | cons u us ih =>
        have hu : u.id ≠ tm.id := hpre u (by simp)
        have hus : ∀ v ∈ us, v.id ≠ tm.id := fun v hv => hpre v (by simp [hv])
        simp [remove_timer, hu, ih hus]

/-- Witness for C9: removing an absent timer is a no-op, and removing a
timer present twice removes only the first of the two matching
entries. -/
theorem C9_remove_first_identity_match_witness :
    remove_timer ⟨2, 3⟩ [⟨1, 5⟩] = [⟨1, 5⟩]
    ∧ remove_timer ⟨2, 3⟩ [⟨1, 5⟩, ⟨2, 3⟩, ⟨2, 3⟩] = [⟨1, 5⟩, ⟨2, 3⟩] := by
  constructor
  · exact (C9_remove_first_identity_match ⟨2, 3⟩ [⟨1, 5⟩] [] [] ⟨0, 0⟩).1 (by decide)
  · exact (C9_remove_first_identity_match ⟨2, 3⟩ [] [⟨1, 5⟩] [⟨2, 3⟩] ⟨2, 3⟩).2
      (by decide) (by decide)

/-- C2.  On every queue state reachable by add / remove (and clear /
execute-ready) operations, `execute_ready_timers` executes exactly the
timers that are due (`time_until_trigger ≤ 0`, equivalently `is_ready`),
taken as the leading segment of the queue — it stops at the first timer
not yet due and never examines or executes a later entry (the executed
list is the longest ready prefix, and by sortedness it equals the full
set of ready timers); it never executes a timer with
`time_until_trigger > 0`; it fires the executed timers in non-decreasing
order of due time; and afterwards the queue is re-sorted (the new queue
is a sorted permutation of the rescheduled executed timers together with
the untouched remainder). -/
theorem C2_execute_ready_timers_correct :
    ∀ (resched : Timer → Timer) (ops : List TOp) (now : Int),
      (∀ t ∈ (execute_ready_timers resched now (runTimers resched ops)).1,
          time_until_trigger now t ≤ 0)
      ∧ (execute_ready_timers resched now (runTimers resched ops)).1
          = (runTimers resched ops).takeWhile (is_ready now)
      ∧ (execute_ready_timers resched now (runTimers resched ops)).1
          = (runTimers resched ops).filter (is_ready now)
      ∧ List.Sorted timerLE (execute_ready_timers resched now (runTimers resched ops)).1
      ∧ List.Sorted timerLE (execute_ready_timers resched now (runTimers resched ops)).2
      ∧ ((execute_ready_timers resched now (runTimers resched ops)).2).Perm
          (((runTimers resched ops).takeWhile (is_ready now)).map resched
            ++ (runTimers resched ops).dropWhile (is_ready now)) := by
  intro resched ops now
  have hsorted : List.Sorted timerLE (runTimers resched ops) :=
    sorted_runTimers resched ops
  refine ⟨?_, rfl, ?_, ?_, ?_, ?_⟩
  · intro t ht
    exact ready_of_mem_takeWhile now _ t ht
  · exact takeWhile_eq_filter_of_sorted now _ hsorted
  · exact sorted_takeWhile now _ hsorted
  · exact sorted_reorder_queue _
  · exact perm_reorder_queue _

/-! ## Entities collector: node ownership (`EventsExecutorEntitiesCollector`) -/

/-- Error raised by `add_node` when the node already belongs to an
executor (`std::runtime_error("Node has already been added ...")`). -/
inductive AddNodeError where
  | nodeAlreadyOwned
deriving DecidableEq, Repr

/-- Collector-relevant state: `assoc` is the set of node ids whose
atomic `get_associated_with_executor_atomic()` flag is `true`, and
`tracked` is `weak_nodes_` — the collector's list of non-owning node
references, in insertion order.  Nodes are identified by `Nat` ids. -/
structure ColState where
  assoc : List Nat
  tracked : List Nat
deriving DecidableEq, Repr

/-- `add_node(node)`: `has_executor.exchange(true)` atomically sets the
flag and yields its previous value; when that value was `true` the call
throws, otherwise the node is appended to `weak_nodes_`.  The check and
the set are one atomic exchange, so failure happens exactly when the
flag was already set. -/
def add_node (n : Nat) (s : ColState) : Except AddNodeError ColState :=
  if n ∈ s.assoc then .error .nodeAlreadyOwned
  else .ok { assoc := n :: s.assoc, tracked := s.tracked ++ [n] }

/-- `remove_node(node)` (success path of the guard-condition rcl call;
all node references live): erases the first matching entry from
`weak_nodes_` after unsetting the node's entity callbacks.  Note that it
never touches the node's `has_executor` flag. -/
def remove_node (n : Nat) (s : ColState) : ColState :=
  { s with tracked := s.tracked.erase n }

/-- The collector destructor: for every reference in `weak_nodes_` whose
`lock()` still succeeds (`live`), stores `false` into the node's
`has_executor` flag; then clears `weak_nodes_`. -/
def collectorDestroy (live : Nat → Bool) (s : ColState) : ColState :=
  { assoc := s.assoc.filter (fun m => !(s.tracked.contains m && live m)),
    tracked := [] }

/-- One collector operation of a node-ownership trace. -/
inductive ColOp where
  | add (n : Nat)
  | remove (n : Nat)
  | destroy
deriving DecidableEq, Repr

/-- Apply one operation; a failing `add_node` leaves the state
unchanged (the exchange wrote `true` to a flag that was already
`true`). -/
def stepCol (live : Nat → Bool) (s : ColState) : ColOp → ColState
  | .add n =>
      match add_node n s with
      | .ok s1 => s1
      | .error _ => s
  | .remove n => remove_node n s
  | .destroy => collectorDestroy live s

/-- Count the successful `add_node n` calls along a trace of operations
starting from state `s`. -/
def addSuccessCount (live : Nat → Bool) (n : Nat) : List ColOp → ColState → Nat
  | [], _ => 0
  | op :: ops, s =>
      (match op with
        | .add m =>
            if m = n then
              (match add_node m s with
                | .ok _ => 1
                | .error _ => 0)
            else 0
        | _ => 0)
      + addSuccessCount live n ops (stepCol live s op)

/-! ### Helper lemmas about node ownership -/

lemma assoc_mono_step (live : Nat → Bool) (s : ColState) (op : ColOp)
    (hop : op ≠ ColOp.destroy) (n : Nat) (hn : n ∈ s.assoc) :
    n ∈ (stepCol live s op).assoc := by
  cases op with
  | add m =>
      by_cases hm : m ∈ s.assoc
      · simp [stepCol, add_node, hm, hn]
      · simp [stepCol, add_node, hm]
        exact Or.inr hn
  | remove m => simpa [stepCol, remove_node] using hn
  | destroy => exact absurd rfl hop

lemma addSuccessCount_zero_of_assoc (live : Nat → Bool) (n : Nat)
    (ops : List ColOp) (hops : ∀ op ∈ ops, op ≠ ColOp.destroy) :
    ∀ s : ColState, n ∈ s.assoc → addSuccessCount live n ops s = 0 := by
  induction ops with
  | nil => intro s _; rfl
  | cons op ops ih =>
      intro s hn
      have hop : op ≠ ColOp.destroy := hops op (by simp)
      have hops2 : ∀ o ∈ ops, o ≠ ColOp.destroy := fun o ho => hops o (by simp [ho])
      have hrest : addSuccessCount live n ops (stepCol live s op) = 0 :=
        ih hops2 _ (assoc_mono_step live s op hop n hn)
      cases op with
      | add m =>
          by_cases hm : m = n
          · subst hm
            simp [addSuccessCount, add_node, hn, hrest]
          · simp [addSuccessCount, hm, hrest]
      | remove m => simp [addSuccessCount, hrest]
      | destroy => exact absurd rfl hop

lemma addSuccessCount_le_one (live : Nat → Bool) (n : Nat)
    (ops : List ColOp) (hops : ∀ op ∈ ops, op ≠ ColOp.destroy) :
    ∀ s : ColState, addSuccessCount live n ops s ≤ 1 := by
  induction ops with
  | nil => intro s; simp [addSuccessCount]
  | cons op ops ih =>
      intro s
      have hop : op ≠ ColOp.destroy := hops op (by simp)
      have hops2 : ∀ o ∈ ops, o ≠ ColOp.destroy := fun o ho => hops o (by simp [ho])
      cases op with
      | add m =>
          have hshow : addSuccessCount live n (ColOp.add m :: ops) s
              = (if m = n then
                  (match add_node m s with
                    | .ok _ => 1
                    | .error _ => 0)
                 else 0)
                + addSuccessCount live n ops (stepCol live s (ColOp.add m)) := rfl
          rw [hshow]
          by_cases hm : m = n
          · subst hm
            by_cases hn : m ∈ s.assoc
            · simp only [add_node, hn, if_pos rfl, if_pos hn]
              simpa using ih hops2 (stepCol live s (ColOp.add m))
            · have hpost : m ∈ (stepCol live s (ColOp.add m)).assoc := by
                simp [stepCol, add_node, hn]
              have hrest :
                  addSuccessCount live m ops (stepCol live s (ColOp.add m)) = 0 :=
                addSuccessCount_zero_of_assoc live m ops hops2 _ hpost
              simp [add_node, hn, hrest]
          · rw [if_neg hm]
            simpa using ih hops2 (stepCol live s (ColOp.add m))
      | remove m =>
          simpa [addSuccessCount] using ih hops2 (stepCol live s (ColOp.remove m))
      | destroy => exact absurd rfl hop

/-- C1 (counterexample to the claim as stated).  Starting from a fresh
node and an empty collector: `add_node 0` succeeds and sets the flag;
a matching `remove_node 0` runs (erasing the tracked reference but
leaving the association flag set); the next `add_node 0` then still
fails with NodeAlreadyOwned — so after a matching `remove_node`,
`add_node` cannot succeed again, contrary to the claim. -/
theorem C1_single_ownership_counterexample :
    add_node 0 ⟨[], []⟩ = .ok ⟨[0], [0]⟩
    ∧ remove_node 0 ⟨[0], [0]⟩ = ⟨[0], []⟩
    ∧ add_node 0 ⟨[0], []⟩ = .error .nodeAlreadyOwned := by
  refine ⟨rfl, rfl, rfl⟩

/-- C1 (amended).  `add_node` fails with NodeAlreadyOwned exactly when
the node's association flag is already set (one atomic exchange decides
it); on success it sets the flag and appends a non-owning reference;
`remove_node` leaves the association flag untouched, so for any one node
at most one `add_node` succeeds along any destroy-free operation
sequence — only collector destruction clears the flag of a tracked,
still-resolving node, after which `add_node` may succeed again. -/
theorem C1_single_ownership_amended :
    ∀ (live : Nat → Bool) (n : Nat) (s : ColState) (ops : List ColOp),
      ((∃ s1, add_node n s = .ok s1) ↔ n ∉ s.assoc)
      ∧ (n ∈ s.assoc → add_node n s = .error .nodeAlreadyOwned)
      ∧ (∀ s1, add_node n s = .ok s1 →
          s1.assoc = n :: s.assoc ∧ s1.tracked = s.tracked ++ [n])
      ∧ (remove_node n s).assoc = s.assoc
      ∧ ((∀ op ∈ ops, op ≠ ColOp.destroy) → addSuccessCount live n ops s ≤ 1)
      ∧ (n ∈ s.tracked → live n = true →
          ∃ s1, add_node n (collectorDestroy live s) = .ok s1) := by
  intro live n s ops
  refine ⟨?_, ?_, ?_, rfl, ?_, ?_⟩
  · constructor
    · rintro ⟨s1, hs1⟩ hmem
      simp [add_node, hmem] at hs1
    · intro hmem
      exact ⟨⟨n :: s.assoc, s.tracked ++ [n]⟩, by simp [add_node, hmem]⟩
  · intro hmem
    simp [add_node, hmem]
  · intro s1 hs1
    by_cases hmem : n ∈ s.assoc
    · simp [add_node, hmem] at hs1
    · simp only [add_node, if_neg hmem, Except.ok.injEq] at hs1
      subst hs1
      exact ⟨rfl, rfl⟩
  · exact fun hops => addSuccessCount_le_one live n ops hops s
  · intro htr hlive
    have hmem : n ∉ (collectorDestroy live s).assoc := by
      intro hmem
      have h2 := (List.mem_filter.mp hmem).2
      simp [hlive] at h2
      exact h2 htr
    exact ⟨⟨n :: (collectorDestroy live s).assoc,
            (collectorDestroy live s).tracked ++ [n]⟩,
           by simp [add_node, hmem]⟩

/-- Witness for C1 (amended): concrete instances of the hypothesised
conjuncts — the trace add 0, remove 0, add 0 yields exactly one
successful add; `remove_node` leaves the flag set; and after destruction
of a collector tracking node 0, `add_node 0` succeeds. -/
theorem C1_single_ownership_amended_witness :
    addSuccessCount (fun _ => true) 0
        [ColOp.add 0, ColOp.remove 0, ColOp.add 0] ⟨[], []⟩ ≤ 1
    ∧ (remove_node 0 ⟨[0], [0]⟩).assoc = [0]
    ∧ (∃ s1, add_node 0 (collectorDestroy (fun _ => true) ⟨[0], [0]⟩) = .ok s1) := by
  refine ⟨?_, ?_, ?_⟩
  · exact (C1_single_ownership_amended (fun _ => true) 0 ⟨[], []⟩
      [ColOp.add 0, ColOp.remove 0, ColOp.add 0]).2.2.2.2.1 (by decide)
  · exact (C1_single_ownership_amended (fun _ => true) 0 ⟨[0], [0]⟩ []).2.2.2.1
  · exact (C1_single_ownership_amended (fun _ => true) 0 ⟨[0], [0]⟩ []).2.2.2.2.2
      (by decide) rfl

/-- C8.  Destroying the collector clears the association flag of every
tracked node whose weak reference still resolves — with no `remove_node`
call involved — releases the tracked set, and leaves the flag of a
reference that no longer resolves untouched (such references are simply
dropped; the destructor is total, so no error arises). -/
theorem C8_teardown_disassociation :
    ∀ (live : Nat → Bool) (s : ColState) (n : Nat),
      (n ∈ s.tracked → live n = true → n ∉ (collectorDestroy live s).assoc)
      ∧ (collectorDestroy live s).tracked = []
      ∧ (live n = false →
          (n ∈ (collectorDestroy live s).assoc ↔ n ∈ s.assoc)) := by
  intro live s n
  refine ⟨?_, rfl, ?_⟩
  · intro htr hlive hmem
    have h2 := (List.mem_filter.mp hmem).2
    simp [hlive] at h2
    exact h2 htr
  · intro hlive
    constructor
    · intro hmem
      exact (List.mem_filter.mp hmem).1
    · intro hmem
      exact List.mem_filter.mpr ⟨hmem, by simp [hlive]⟩

/-- Witness for C8: destroying a collector tracking live nodes 0 and 1
clears both flags and empties the tracked set; a dead node's flag is
untouched. -/
theorem C8_teardown_disassociation_witness :
    (0 : Nat) ∉ (collectorDestroy (fun _ => true) ⟨[0, 1], [0, 1]⟩).assoc
    ∧ (1 : Nat) ∉ (collectorDestroy (fun _ => true) ⟨[0, 1], [0, 1]⟩).assoc
    ∧ (collectorDestroy (fun _ => true) (⟨[0, 1], [0, 1]⟩ : ColState)).tracked = []
    ∧ ((1 : Nat) ∈ (collectorDestroy (fun _ => false) ⟨[1], [1]⟩).assoc
        ↔ (1 : Nat) ∈ ([1] : List Nat)) := by
  refine ⟨?_, ?_, ?_, ?_⟩
  · exact (C8_teardown_disassociation (fun _ => true) ⟨[0, 1], [0, 1]⟩ 0).1
      (by decide) rfl
  · exact (C8_teardown_disassociation (fun _ => true) ⟨[0, 1], [0, 1]⟩ 1).1
      (by decide) rfl
  · exact (C8_teardown_disassociation (fun _ => true) ⟨[0, 1], [0, 1]⟩ 0).2.1
  · exact (C8_teardown_disassociation (fun _ => false) ⟨[1], [1]⟩ 1).2.2 rfl

/-! ## Entities collector: wiring (`execute` / `set_entities_callbacks`)

`init` supplies the executor context pointer, the executor callback and
the `push_timer_` / `clear_all_timers_` hooks; `execute` runs
`clear_all_timers_()` followed by `set_entities_callbacks()`, which
walks every tracked node that still resolves, every callback group of it
that resolves and is takeable, pushes every timer into the executor's
timer queue and assigns `(executor_context_, executor_callback_)` into
the callback slot of every subscription, service, client and waitable.
Entities are identified by `Nat` ids; a callback slot holds
`some (context, callback)` or `none` (unwired). -/

/-- A callback group as the collector enumerates it: whether the weak
reference still locks, the `can_be_taken_from()` flag, and the member
entities. -/
structure EGroup where
  glive : Bool
  takeable : Bool
  timers : List Timer
  subs : List Nat
  svcs : List Nat
  clis : List Nat
  waits : List Nat

/-- A tracked node: whether its weak reference still locks, and its
callback groups. -/
structure ENode where
  nlive : Bool
  groups : List EGroup

/-- The wiring state the collector mutates: the executor timer queue
and the per-entity callback slot assignment. -/
structure Wiring where
  queue : List Timer
  cb : Nat → Option (Nat × Nat)

/-- Assign value `v` to entity `e`'s callback slot. -/
def updSlot (v : Option (Nat × Nat)) (e : Nat) (f : Nat → Option (Nat × Nat)) :
    Nat → Option (Nat × Nat) :=
  fun x => if x = e then v else f x

/-- Assign value `v` to every entity slot in `es`, in enumeration
order. -/
def setSlots (v : Option (Nat × Nat)) (es : List Nat)
    (f : Nat → Option (Nat × Nat)) : Nat → Option (Nat × Nat) :=
  es.foldl (fun g e => updSlot v e g) f

/-- Push a list of timers into the queue one by one (`push_timer_`,
which is `TimersQueue::add_timer`). -/
def pushTimers (ts : List Timer) (q : List Timer) : List Timer :=
  ts.foldl (fun acc t => add_timer t acc) q

/-- The non-timer entities of a group, in the order the source wires
them (subscriptions, services, clients, waitables). -/
def groupEnts (g : EGroup) : List Nat := g.subs ++ g.svcs ++ g.clis ++ g.waits

/-- Wire one callback group: skipped entirely when the group no longer
locks or is not takeable; otherwise its timers are pushed and its other
entities' slots all set to `(executor_context_, executor_callback_)`. -/
def wireGroup (ctx cbv : Nat) (w : Wiring) (g : EGroup) : Wiring :=
  if g.glive && g.takeable then
    { queue := pushTimers g.timers w.queue,
      cb := setSlots (some (ctx, cbv)) (groupEnts g) w.cb }
  else w

/-- Wire one node: skipped when its weak reference no longer locks. -/
def wireNode (ctx cbv : Nat) (w : Wiring) (nd : ENode) : Wiring :=
  if nd.nlive then nd.groups.foldl (wireGroup ctx cbv) w else w

/-- `set_entities_callbacks()`: walk every tracked node. -/
def set_entities_callbacks (ctx cbv : Nat) (graph : List ENode) (w : Wiring) :
    Wiring :=
  graph.foldl (wireNode ctx cbv) w

/-- `execute()` (the resync entry point): `clear_all_timers_()` then
`set_entities_callbacks()`. -/
def collectorExecute (ctx cbv : Nat) (graph : List ENode) (w : Wiring) : Wiring :=
  set_entities_callbacks ctx cbv graph { w with queue := clear_all w.queue }

/-- The timers actually wired from a group (none when skipped). -/
def wiredTimersG (g : EGroup) : List Timer :=
  if g.glive && g.takeable then g.timers else []

/-- The entity slots actually wired from a group (none when skipped). -/
def wiredEntsG (g : EGroup) : List Nat :=
  if g.glive && g.takeable then groupEnts g else []

/-- The timers actually wired from a node. -/
def wiredTimersN (nd : ENode) : List Timer :=
  if nd.nlive then (nd.groups.map wiredTimersG).flatten else []

/-- The entity slots actually wired from a node. -/
def wiredEntsN (nd : ENode) : List Nat :=
  if nd.nlive then (nd.groups.map wiredEntsG).flatten else []

/-- All timers wired from the tracked graph. -/
def wiredTimers (graph : List ENode) : List Timer :=
  (graph.map wiredTimersN).flatten

/-- All entity slots wired from the tracked graph. -/
def wiredEnts (graph : List ENode) : List Nat :=
  (graph.map wiredEntsN).flatten

/-! ### Helper lemmas about wiring -/

lemma pushTimers_append (a b : List Timer) (q : List Timer) :
    pushTimers (a ++ b) q = pushTimers b (pushTimers a q) :=
  List.foldl_append _ _ a b

lemma setSlots_append (v : Option (Nat × Nat)) (a b : List Nat)
    (f : Nat → Option (Nat × Nat)) :
    setSlots v (a ++ b) f = setSlots v b (setSlots v a f) :=
  List.foldl_append _ _ a b

lemma setSlots_apply (v : Option (Nat × Nat)) (es : List Nat)
    (f : Nat → Option (Nat × Nat)) (x : Nat) :
    setSlots v es f x = if x ∈ es then v else f x := by
  induction es generalizing f with
  | nil => simp [setSlots]
  | cons e es ih =>
      have hstep : setSlots v (e :: es) f = setSlots v es (updSlot v e f) := rfl
      rw [hstep, ih]
      by_cases hx : x ∈ es
      · simp [hx]
      · by_cases he : x = e <;> simp [updSlot, hx, he]

lemma wireGroup_queue (ctx cbv : Nat) (w : Wiring) (g : EGroup) :
    (wireGroup ctx cbv w g).queue = pushTimers (wiredTimersG g) w.queue := by
  by_cases h : g.glive && g.takeable <;> simp [wireGroup, wiredTimersG, h, pushTimers]

lemma wireGroup_cb (ctx cbv : Nat) (w : Wiring) (g : EGroup) :
    (wireGroup ctx cbv w g).cb = setSlots (some (ctx, cbv)) (wiredEntsG g) w.cb := by
  by_cases h : g.glive && g.takeable <;> simp [wireGroup, wiredEntsG, h, setSlots]

lemma foldl_wireGroup_queue (ctx cbv : Nat) (gs : List EGroup) :
    ∀ w : Wiring, (gs.foldl (wireGroup ctx cbv) w).queue
      = pushTimers ((gs.map wiredTimersG).flatten) w.queue := by
  induction gs with
  | nil => intro w; simp [pushTimers]
  | cons g gs ih =>
      intro w
      simp only [List.foldl_cons, List.map_cons, List.flatten_cons]
      rw [ih, pushTimers_append, wireGroup_queue]

lemma foldl_wireGroup_cb (ctx cbv : Nat) (gs : List EGroup) :
    ∀ w : Wiring, (gs.foldl (wireGroup ctx cbv) w).cb
      = setSlots (some (ctx, cbv)) ((gs.map wiredEntsG).flatten) w.cb := by
  induction gs with
  | nil => intro w; simp [setSlots]
  | cons g gs ih =>
      intro w
      simp only [List.foldl_cons, List.map_cons, List.flatten_cons]
      rw [ih, setSlots_append, wireGroup_cb]

lemma wireNode_queue (ctx cbv : Nat) (w : Wiring) (nd : ENode) :
    (wireNode ctx cbv w nd).queue = pushTimers (wiredTimersN nd) w.queue := by
  by_cases h : nd.nlive
  · simp [wireNode, wiredTimersN, h, foldl_wireGroup_queue]
  · simp [wireNode, wiredTimersN, h, pushTimers]

lemma wireNode_cb (ctx cbv : Nat) (w : Wiring) (nd : ENode) :
    (wireNode ctx cbv w nd).cb
      = setSlots (some (ctx, cbv)) (wiredEntsN nd) w.cb := by
  by_cases h : nd.nlive
  · simp [wireNode, wiredEntsN, h, foldl_wireGroup_cb]
  · simp [wireNode, wiredEntsN, h, setSlots]

lemma set_entities_callbacks_queue (ctx cbv : Nat) (graph : List ENode) :
    ∀ w : Wiring, (set_entities_callbacks ctx cbv graph w).queue
      = pushTimers (wiredTimers graph) w.queue := by
  induction graph with
  | nil => intro w; simp [set_entities_callbacks, wiredTimers, pushTimers]
  | cons nd graph ih =>
      intro w
      simp only [set_entities_callbacks, List.foldl_cons, wiredTimers,
        List.map_cons, List.flatten_cons]
      rw [show (graph.foldl (wireNode ctx cbv) (wireNode ctx cbv w nd))
            = set_entities_callbacks ctx cbv graph (wireNode ctx cbv w nd) from rfl,
          ih, pushTimers_append, wireNode_queue]
      simp [wiredTimers]

lemma set_entities_callbacks_cb (ctx cbv : Nat) (graph : List ENode) :
    ∀ w : Wiring, (set_entities_callbacks ctx cbv graph w).cb
      = setSlots (some (ctx, cbv)) (wiredEnts graph) w.cb := by
  induction graph with
  | nil => intro w; simp [set_entities_callbacks, wiredEnts, setSlots]
  | cons nd graph ih =>
      intro w
      simp only [set_entities_callbacks, List.foldl_cons, wiredEnts,
        List.map_cons, List.flatten_cons]
      rw [show (graph.foldl (wireNode ctx cbv) (wireNode ctx cbv w nd))
            = set_entities_callbacks ctx cbv graph (wireNode ctx cbv w nd) from rfl,
          ih, setSlots_append, wireNode_cb]
      simp [wiredEnts]

lemma wiring_ext (a b : Wiring) (h1 : a.queue = b.queue) (h2 : a.cb = b.cb) :
    a = b := by
  cases a; cases b; simp_all

/-- C5.  Resync idempotence: with a fixed tracked graph (nodes, groups,
entities), running `execute()` — clear the timer queue, then re-derive
the complete wiring from the live graph — twice in a row yields exactly
the same wiring state (timer-queue contents and per-entity callback
slots) as running it once. -/
theorem C5_resync_idempotent :
    ∀ (ctx cbv : Nat) (graph : List ENode) (w : Wiring),
      collectorExecute ctx cbv graph (collectorExecute ctx cbv graph w)
        = collectorExecute ctx cbv graph w := by
  intro ctx cbv graph w
  apply wiring_ext
  · simp only [collectorExecute, set_entities_callbacks_queue]
    rfl
  · simp only [collectorExecute, set_entities_callbacks_cb]
    funext x
    simp only [setSlots_apply]
    by_cases hx : x ∈ wiredEnts graph <;> simp [hx]

/-! ## Clock (`rclcpp::Clock`) -/

/-- Outcome of `Clock::ros_time_is_active()`: either a normal return
carrying the boolean result and whether an error was logged on the way,
or an exception propagated to the caller
(`rclcpp::exceptions::throw_from_rcl_error`). -/
inductive RosActiveResult where
  | ret (active : Bool) (logged_error : Bool)
  | raised
deriving DecidableEq, Repr

/-- The rcl-level clock state `ros_time_is_active` consults: whether
`rcl_clock_valid` holds, whether `rcl_is_enabled_ros_time_override`
returns `RCL_RET_OK`, and the override-enabled flag it reports when it
does. -/
structure RclClock where
  valid : Bool
  query_ok : Bool
  override_enabled : Bool
deriving DecidableEq, Repr

/-- `Clock::ros_time_is_active()`: an invalid clock logs
"ROS time not valid!" and returns `false`; then the enabled-status query
runs, and a non-OK return code is converted into a thrown exception;
otherwise the queried flag is returned. -/
def ros_time_is_active (c : RclClock) : RosActiveResult :=
  if !c.valid then .ret false true
  else if !c.query_ok then .raised
  else .ret c.override_enabled false

/-- C6 (counterexample to the claim as stated).  On a valid clock whose
enabled-status query fails, `ros_time_is_active` raises the converted
rcl error to the caller instead of returning `false` with the failure
logged. -/
theorem C6_ros_time_is_active_counterexample :
    ros_time_is_active ⟨true, false, false⟩ = .raised
    ∧ ros_time_is_active ⟨true, false, false⟩ ≠ .ret false true := by
  refine ⟨rfl, by decide⟩

/-- C6 (amended).  `ros_time_is_active` returns `true` iff the clock is
valid, the enabled-status query succeeds and the simulation-time
override is enabled; an invalid clock makes it return `false` with the
failure logged; but a failing enabled-status query raises an error to
the caller rather than returning `false`. -/
theorem C6_ros_time_is_active_amended :
    ∀ c : RclClock,
      (ros_time_is_active c = .ret true false
        ↔ (c.valid = true ∧ c.query_ok = true ∧ c.override_enabled = true))
      ∧ (c.valid = false → ros_time_is_active c = .ret false true)
      ∧ (ros_time_is_active c = .raised
        ↔ (c.valid = true ∧ c.query_ok = false)) := by
  intro c
  rcases c with ⟨v, q, o⟩
  cases v <;> cases q <;> cases o <;> decide

/-- Witness for C6 (amended): the three behaviours at concrete clock
states. -/
theorem C6_ros_time_is_active_amended_witness :
    ros_time_is_active ⟨true, true, true⟩ = .ret true false
    ∧ ros_time_is_active ⟨false, true, true⟩ = .ret false true
    ∧ ros_time_is_active ⟨true, false, true⟩ = .raised := by
  refine ⟨?_, ?_, ?_⟩
  · exact (C6_ros_time_is_active_amended ⟨true, true, true⟩).1.mpr ⟨rfl, rfl, rfl⟩
  · exact (C6_ros_time_is_active_amended ⟨false, true, true⟩).2.1 rfl
  · exact (C6_ros_time_is_active_amended ⟨true, false, true⟩).2.2.mpr ⟨rfl, rfl⟩

/-- Errors `Clock::create_jump_callback` can raise: `RCL_RET_BAD_ALLOC`
when allocating the `JumpHandler` fails, or the converted rcl error when
`rcl_clock_add_jump_callback` fails. -/
inductive JumpCreateError where
  | allocationError
  | registrationError
deriving DecidableEq, Repr

/-- State touched by jump-callback registration: the live `JumpHandler`
objects (by address), the jump callbacks currently registered with the
rcl clock (by the handler address passed as user data), and the next
fresh address the allocator hands out. -/
structure JumpClockState where
  allocated : List Nat
  registered : List Nat
  next : Nat
deriving DecidableEq, Repr

/-- `Clock::create_jump_callback(pre, post, threshold)`: allocate a
`JumpHandler` (throwing `RCL_RET_BAD_ALLOC` when that fails), then try
`rcl_clock_add_jump_callback`; on failure `delete` the handler and throw
the converted error; on success return the handler wrapped in a shared
pointer.  `alloc_ok` and `reg_ok` model the outcomes of the two external
calls. -/
def create_jump_callback (alloc_ok reg_ok : Bool) (s : JumpClockState) :
    JumpClockState × Except JumpCreateError Nat :=
  if !alloc_ok then (s, .error .allocationError)
  else
    let h := s.next
    let s1 : JumpClockState :=
      { allocated := h :: s.allocated, registered := s.registered,
        next := s.next + 1 }
    if !reg_ok then
      ({ s1 with allocated := s1.allocated.erase h }, .error .registrationError)
    else
      ({ s1 with registered := h :: s1.registered }, .ok h)

/-- The deleter installed on the returned shared pointer: calls
`rcl_clock_remove_jump_callback`, deletes the handler, and — being
`noexcept` — only logs a failing removal (returned flag) instead of
propagating it; a failed removal leaves the rcl-side registration
behind. -/
def jump_handle_release (remove_ok : Bool) (h : Nat) (s : JumpClockState) :
    JumpClockState × Bool :=
  ({ s with
      registered := if remove_ok then s.registered.erase h else s.registered,
      allocated := s.allocated.erase h },
   !remove_ok)

/-- C7.  Allocation failure raises AllocationError with no state change;
registration failure raises RegistrationError after fully rolling the
allocated handler back (allocated and registered sets exactly as before
the call — no partial registration state; only the model's fresh-address
counter advanced); on success the handler is allocated and registered
exactly once, and releasing the returned handle deregisters and frees it
exactly once, never raising (the deleter is total), with a failing
removal reported only through the logged flag. -/
theorem C7_jump_callback_rollback_and_release :
    ∀ (s : JumpClockState) (reg_ok remove_ok : Bool) (h : Nat),
      create_jump_callback false reg_ok s = (s, .error .allocationError)
      ∧ ((create_jump_callback true false s).1 = { s with next := s.next + 1 }
          ∧ (create_jump_callback true false s).2 = .error .registrationError)
      ∧ (s.next ∉ s.allocated → s.next ∉ s.registered →
          ((create_jump_callback true true s).2 = .ok s.next
            ∧ ((create_jump_callback true true s).1).allocated.count s.next = 1
            ∧ ((create_jump_callback true true s).1).registered.count s.next = 1
            ∧ ((jump_handle_release true s.next
                  (create_jump_callback true true s).1).1).registered.count s.next
                = 0
            ∧ ((jump_handle_release true s.next
                  (create_jump_callback true true s).1).1).allocated.count s.next
                = 0))
      ∧ (jump_handle_release remove_ok h s).2 = !remove_ok := by
  intro s reg_ok remove_ok h
  refine ⟨rfl, ⟨?_, rfl⟩, ?_, rfl⟩
  · simp [create_jump_callback, List.erase_cons_head]
  · intro ha hr
    have hca : ((create_jump_callback true true s).1).allocated
        = s.next :: s.allocated := rfl
    have hcr : ((create_jump_callback true true s).1).registered
        = s.next :: s.registered := rfl
    have hza : s.allocated.count s.next = 0 := List.count_eq_zero.mpr ha
    have hzr : s.registered.count s.next = 0 := List.count_eq_zero.mpr hr
    refine ⟨rfl, ?_, ?_, ?_, ?_⟩
    · rw [hca, List.count_cons_self, hza]
    · rw [hcr, List.count_cons_self, hzr]
    · show ((s.next :: s.registered).erase s.next).count s.next = 0
      rw [List.erase_cons_head, hzr]
    · show ((s.next :: s.allocated).erase s.next).count s.next = 0
      rw [List.erase_cons_head, hza]

/-- Witness for C7: the full create / release round trip from the empty
clock state. -/
theorem C7_jump_callback_rollback_and_release_witness :
    (create_jump_callback true true ⟨[], [], 0⟩).2 = .ok 0
    ∧ ((create_jump_callback true true ⟨[], [], 0⟩).1).registered.count 0 = 1
    ∧ ((jump_handle_release true 0
          (create_jump_callback true true ⟨[], [], 0⟩).1).1).registered.count 0 = 0
    ∧ (jump_handle_release false 0 ⟨[], [], 0⟩).2 = true := by
  refine ⟨?_, ?_, ?_, ?_⟩
  · exact ((C7_jump_callback_rollback_and_release ⟨[], [], 0⟩ true true 0).2.2.1
      (by decide) (by decide)).1
  · exact ((C7_jump_callback_rollback_and_release ⟨[], [], 0⟩ true true 0).2.2.1
      (by decide) (by decide)).2.2.1
  · exact ((C7_jump_callback_rollback_and_release ⟨[], [], 0⟩ true true 0).2.2.1
      (by decide) (by decide)).2.2.2.1
  · exact (C7_jump_callback_rollback_and_release ⟨[], [], 0⟩ true false 0).2.2.2

/-- One observable callback invocation made by `Clock::on_time_jump`. -/
inductive JumpInvocation where
  | preCall
  | postCall (jump : Int)
deriving DecidableEq, Repr

/-- The two optional callbacks a `JumpHandler` holds: whether each
`std::function` is non-null. -/
structure JumpHandlerSlots where
  has_pre : Bool
  has_post : Bool
deriving DecidableEq, Repr

/-- `Clock::on_time_jump(time_jump, before_jump, user_data)`: with the
handler recovered from `user_data`, call the pre-jump callback when
`before_jump` is set and that callback is non-null; otherwise call the
post-jump callback with the jump value when `before_jump` is clear and
that callback is non-null; otherwise do nothing.  Returns the list of
invocations performed. -/
def on_time_jump (time_jump : Int) (before_jump : Bool)
    (handler : JumpHandlerSlots) : List JumpInvocation :=
  if before_jump && handler.has_pre then [.preCall]
  else if !before_jump && handler.has_post then [.postCall time_jump]
  else []

/-- C10.  Each `on_time_jump` invocation performs at most one callback
call — never both; the pre-jump callback is called exactly when the
before-jump flag is set and it is non-null; the post-jump callback,
receiving the jump value, is called exactly when the flag is clear and
it is non-null; and nothing is called when the selected callback is
null. -/
theorem C10_on_time_jump_dispatch :
    ∀ (tj : Int) (bj : Bool) (h : JumpHandlerSlots),
      (on_time_jump tj bj h).length ≤ 1
      ∧ (JumpInvocation.preCall ∈ on_time_jump tj bj h
          ↔ (bj = true ∧ h.has_pre = true))
      ∧ (∀ j : Int, JumpInvocation.postCall j ∈ on_time_jump tj bj h
          ↔ (bj = false ∧ h.has_post = true ∧ j = tj))
      ∧ (bj = true → h.has_pre = false → on_time_jump tj bj h = [])
      ∧ (bj = false → h.has_post = false → on_time_jump tj bj h = []) := by
  intro tj bj h
  rcases h with ⟨p, q⟩
  cases bj <;> cases p <;> cases q <;>
    simp [on_time_jump]

/-- Witness for C10: concrete dispatches — a pre-jump call, a post-jump
call carrying the jump value, and a no-op when the selected callback is
null. -/
theorem C10_on_time_jump_dispatch_witness :
    JumpInvocation.preCall ∈ on_time_jump 0 true ⟨true, false⟩
    ∧ JumpInvocation.postCall 7 ∈ on_time_jump 7 false ⟨true, true⟩
    ∧ on_time_jump 3 true ⟨false, true⟩ = [] := by
  refine ⟨?_, ?_, ?_⟩
  · exact (C10_on_time_jump_dispatch 0 true ⟨true, false⟩).2.1.mpr ⟨rfl, rfl⟩
  · exact ((C10_on_time_jump_dispatch 7 false ⟨true, true⟩).2.2.1 7).mpr
      ⟨rfl, rfl, rfl⟩
  · exact (C10_on_time_jump_dispatch 3 true ⟨false, true⟩).2.2.2.1 rfl rfl

/-- Witness for C2: on the queue built by adding timers due at 5 and at
20, executing at instant 10 — where the first is overdue and the second
is not — the executed head timer indeed had `time_until_trigger ≤ 0`,
and the executed list is exactly the due prefix. -/
theorem C2_execute_ready_timers_correct_witness :
    time_until_trigger 10 ⟨1, 5⟩ ≤ 0
    ∧ (execute_ready_timers id 10
        (runTimers id [TOp.add ⟨1, 5⟩, TOp.add ⟨2, 20⟩])).1
      = (runTimers id [TOp.add ⟨1, 5⟩, TOp.add ⟨2, 20⟩]).filter (is_ready 10) := by
  constructor
  · exact (C2_execute_ready_timers_correct id
      [TOp.add ⟨1, 5⟩, TOp.add ⟨2, 20⟩] 10).1 ⟨1, 5⟩ (by decide)
  · exact (C2_execute_ready_timers_correct id
      [TOp.add ⟨1, 5⟩, TOp.add ⟨2, 20⟩] 10).2.2.1
